import Mathlib

/-!
Formal model of `django_override_db_tables/__init__.py`.

The module provides context managers that temporarily override the
`Meta.db_table` attribute of Django model classes:

* `LockingOverrideDatabaseTables` — mutates `k._meta.db_table` for each model
  in its mapping, guarded by a process-wide lock and a thread-local depth
  counter (`thread_data.depth`);
* `ReplaceDatabaseTable` — builds a brand-new derived model class with the
  target `db_table` baked in, mutating nothing shared;
* `OverrideDatabaseTables` — like the first, but without lock or depth, for
  models whose `db_table` is a thread-local slot (`SwappableDbTableModel`).

We embed the shared state as a function from model identifiers to table-name
strings, together with the global lock and the per-thread depth counter.
Bodies of `with` blocks are modelled as arbitrary state transformers that may
raise (return `some e`), which covers normal completion, raising bodies and
nested scopes alike.  A separate small-step system over per-thread stacks of
entered scopes models concurrent `with`-block usage for the lock-discipline
properties.
-/

namespace OverrideDb

/-- Errors raised by the Python code.  `valueError` for the odd-argument
check, `attributeError` for the `SwappableDbTableModel` subclass check and
for reading an unset `thread_data.depth`, `typeError` for calling
`type(model).mro(model)` on a non-class, `threadError` for
`lock.release()` on an unheld lock. -/
inductive PyErr where
  | valueError
  | attributeError
  | typeError
  | threadError
  deriving DecidableEq, Repr

/-- The shared table state: for each model (identified by a natural number)
the current value of `k._meta.db_table`. -/
abbrev Tables := Nat → String

/-- `old_mapping`-style capture: `dict((k, k._meta.db_table) for k, _ in
self.mapping.items())`, as the association list of pairs
`(k, current table of k)`. -/
def captureAll (mapping : List (Nat × String)) (tab : Tables) : List (Nat × String) :=
  mapping.map (fun p => (p.1, tab p.1))

/-- The override/restore loop `for k, v in mapping.items():
k._meta.db_table = v`, as a left fold of pointwise updates. -/
def installAll (mapping : List (Nat × String)) (tab : Tables) : Tables :=
  mapping.foldl (fun t p => Function.update t p.1 p.2) tab

/-- Global state for the locking variant: the shared table assignment, the
process-wide `lock` (`some t` means held, acquired by thread `t`; the thread
annotation is ghost information — the underlying `threading.Lock` only
distinguishes held from free, and `release` works from any thread), and the
thread-local `thread_data.depth` (`none` models the attribute never having
been set on that thread). -/
structure GState where
  tables : Tables
  locked : Option Nat
  depth : Nat → Option Int

/-- The value `thread_data.depth` holds right after the
`try: thread_data.depth += 1 except AttributeError: thread_data.depth = 1`
prologue of `LockingOverrideDatabaseTables.__enter__`. -/
def dNext (g : GState) (t : Nat) : Int :=
  match g.depth t with
  | some d0 => d0 + 1
  | none => 1

/-- `LockingOverrideDatabaseTables.__enter__` run by thread `t`:
increment (or initialise) the thread-local depth; at depth 1 acquire the
global lock — `none` models blocking on `lock.acquire()` (also on
self-deadlock, since `threading.Lock` is not reentrant); then capture
`old_mapping` and install the overrides.  Returns the new state and the
captured `old_mapping`.  (The Python return value — the model or list of
models, for `as`-binding — plays no role in any property and is omitted.) -/
def lockingEnter (t : Nat) (mapping : List (Nat × String)) (g : GState) :
    Option (GState × List (Nat × String)) :=
  let d := dNext g t
  let g1 : GState := { g with depth := Function.update g.depth t (some d) }
  let g2opt : Option GState :=
    if d = 1 then
      match g1.locked with
      | some _ => none
      | none => some { g1 with locked := some t }
    else some g1
  g2opt.map fun g2 =>
    ({ g2 with tables := installAll mapping g2.tables }, captureAll mapping g2.tables)

/-- `LockingOverrideDatabaseTables.__exit__` run by thread `t` with the
scope's captured `old_mapping`: restore the tables; then
`try: thread_data.depth -= 1 except: pass` (the decrement itself only fails
when the attribute is unset); then `if thread_data.depth == 0: lock.release()`
— reading an unset `thread_data.depth` raises `AttributeError` here, and
`lock.release()` on an unheld lock raises.  Returns the new state and the
error the method itself raised (`none` means it returned `False`, so a body
exception is not suppressed). -/
def lockingExit (t : Nat) (old : List (Nat × String)) (g : GState) :
    GState × Option PyErr :=
  let g1 : GState := { g with tables := installAll old g.tables }
  let g2 : GState :=
    match g1.depth t with
    | some d => { g1 with depth := Function.update g1.depth t (some (d - 1)) }
    | none => g1
  match g2.depth t with
  | none => (g2, some PyErr.attributeError)
  | some d =>
    if d = 0 then
      match g2.locked with
      | none => (g2, some PyErr.threadError)
      | some _ => ({ g2 with locked := none }, none)
    else (g2, none)

/-- Outcome of running a whole `with` block: completed, propagated the body's
exception unchanged, or raised an error of the override machinery itself. -/
inductive Outcome (ε : Type) where
  | ok
  | raised (e : ε)
  | internal (pe : PyErr)
  deriving DecidableEq, Repr

/-- Python `with`-statement epilogue: a body exception is suppressed exactly
when `__exit__` returns a truthy value. -/
def settle {ε : Type} (ret : Bool) (be : Option ε) : Outcome ε :=
  if ret then Outcome.ok
  else
    match be with
    | some e => Outcome.raised e
    | none => Outcome.ok

/-- A whole `with LockingOverrideDatabaseTables(...)` block run by thread `t`
with an arbitrary body (which may raise `some e` and transform the state in
any way — in particular the body may itself contain nested scopes).  `none`
means the enter blocked on the lock.  An error raised by `__exit__` itself
replaces the body's exception, as in Python. -/
def runLocking {ε : Type} (t : Nat) (mapping : List (Nat × String))
    (body : GState → Option ε × GState) (g : GState) : Option (Outcome ε × GState) :=
  match lockingEnter t mapping g with
  | none => none
  | some (g1, old) =>
    let r := body g1
    let x := lockingExit t old r.2
    some
      (match x.2 with
       | some pe => Outcome.internal pe
       | none => settle false r.1, x.1)

/-- `OverrideDatabaseTables.__enter__`: capture `old_mapping`, install the
overrides (on the calling thread's view of the thread-local `db_table`
slots).  No lock, no depth counter. -/
def overrideEnter (mapping : List (Nat × String)) (tab : Tables) :
    Tables × List (Nat × String) :=
  (installAll mapping tab, captureAll mapping tab)

/-- `OverrideDatabaseTables.__exit__`: restore the captured tables and return
`False` (never suppress the body's exception). -/
def overrideExit (old : List (Nat × String)) (tab : Tables) : Tables × Bool :=
  (installAll old tab, false)

/-- A whole `with OverrideDatabaseTables(...)` block with an arbitrary
body. -/
def runOverride {ε : Type} (mapping : List (Nat × String))
    (body : Tables → Option ε × Tables) (tab : Tables) : Outcome ε × Tables :=
  let en := overrideEnter mapping tab
  let r := body en.1
  let x := overrideExit en.2 r.2
  (settle x.2 r.1, x.1)

/-- A model class derived by `ReplaceDatabaseTable.__enter__`: its `_meta`
name, its `db_table`, and the base model it derives from. -/
structure DerivedType where
  name : String
  dbTable : String
  base : Nat
  deriving DecidableEq, Repr

/-- Decimal digit rendered as a character, for the `%i` format. -/
def digitChar (d : Nat) : Char := Char.ofNat (48 + d)

/-- Decimal rendering of a natural number (Python `'%i' % n` for
non-negative `n`, such as `thread.get_ident()`). -/
def natDec (n : Nat) : String :=
  if n = 0 then "0" else ⟨((Nat.digits 10 n).map digitChar).reverse⟩

/-- The `_meta` name produced by `DbTableSwappingMetaclass.__new__`:
`'ModelWithSwappedDbTable' + '--x-dbtable-overridden--%s-%f-%i' %
(db_table, time.time(), thread.get_ident())`.  The `%f`-rendered timestamp
is passed as the string `ts` (two creations at the same clock-resolution
instant observe the same `ts`). -/
def derivedName (db_table ts : String) (tid : Nat) : String :=
  "ModelWithSwappedDbTable--x-dbtable-overridden--" ++ db_table ++ "-" ++ ts ++ "-"
    ++ natDec tid

/-- `ReplaceDatabaseTable.__enter__`: build a new derived type with the
target `db_table` baked into its `Meta` and the disambiguated name; the
shared table state is returned untouched (the method only defines new
classes). -/
def replaceEnter (base : Nat) (db_table ts : String) (tid : Nat) (tab : Tables) :
    DerivedType × Tables :=
  ({ name := derivedName db_table ts tid, dbTable := db_table, base := base }, tab)

/-- `ReplaceDatabaseTable.__exit__`: no restoration at all; returns `False`
so exceptions propagate. -/
def replaceExit (tab : Tables) : Tables × Bool := (tab, false)

/-- A whole `with ReplaceDatabaseTable(model, db_table) as TM` block with an
arbitrary body receiving the new derived type. -/
def runReplace {ε : Type} (base : Nat) (db_table ts : String) (tid : Nat)
    (body : DerivedType → Tables → Option ε × Tables) (tab : Tables) :
    Outcome ε × Tables :=
  let en := replaceEnter base db_table ts tid tab
  let r := body en.1 en.2
  let x := replaceExit r.2
  (settle x.2 r.1, x.1)

/-- A Python model class as seen by the constructors: its identifier and
whether `SwappableDbTableModel` occurs in `type(model).mro(model)`. -/
structure PyModel where
  ident : Nat
  swappable : Bool
  deriving DecidableEq, Repr

/-- A positional argument to the constructors: a model class or a table-name
string. -/
inductive PyObj where
  | model (m : PyModel)
  | str (s : String)
  deriving DecidableEq, Repr

/-- `args[0::2]`. -/
def evens : List PyObj → List PyObj
  | [] => []
  | [a] => [a]
  | a :: _ :: rest => a :: evens rest

/-- `args[1::2]`. -/
def odds : List PyObj → List PyObj
  | [] => []
  | _ :: rest => evens rest

/-- Whether `SwappableDbTableModel in type(model).mro(model)` holds of an
argument (false for a model class not deriving from it). -/
def isSwappableModel : PyObj → Bool
  | .model m => m.swappable
  | .str _ => false

/-- Whether the argument is a class at all (so that
`type(model).mro(model)` can be evaluated without a `TypeError`). -/
def isClassArg : PyObj → Bool
  | .model _ => true
  | .str _ => false

/-- `LockingOverrideDatabaseTables.__init__(*args)`: an odd number of
positional arguments raises `ValueError` before anything else; otherwise
`self.mapping = dict(zip(args[0::2], args[1::2]))`.  The shared state `g` is
threaded through untouched — the constructor performs no mutation. -/
def lockingInit (args : List PyObj) (g : GState) :
    Except PyErr (List (PyObj × PyObj)) × GState :=
  if args.length % 2 ≠ 0 then (Except.error PyErr.valueError, g)
  else (Except.ok ((evens args).zip (odds args)), g)

/-- `OverrideDatabaseTables.__init__(*args)`: the same odd-length check
first; then the filter `[model for model in args[0::2] if
SwappableDbTableModel not in type(model).mro(model)]` evaluates the mro of
every even-position argument — a non-class even argument makes that raise
`TypeError`, and otherwise a non-empty filtered list raises
`AttributeError`; only then is the mapping stored.  No mutation in any
branch. -/
def overrideInit (args : List PyObj) (g : GState) :
    Except PyErr (List (PyObj × PyObj)) × GState :=
  if args.length % 2 ≠ 0 then (Except.error PyErr.valueError, g)
  else if (evens args).any (fun o => !isClassArg o) then (Except.error PyErr.typeError, g)
  else if (evens args).any (fun o => !isSwappableModel o) then
    (Except.error PyErr.attributeError, g)
  else (Except.ok ((evens args).zip (odds args)), g)

/-- System state for concurrent `with LockingOverrideDatabaseTables` usage:
the global state plus, for each thread, the stack of `old_mapping`s of its
currently entered (not yet exited) scopes.  The stack encodes the
`with`-statement discipline: a thread only ever exits its most recently
entered scope. -/
structure Sys where
  g : GState
  stks : Nat → List (List (Nat × String))

/-- An enter or exit event of some thread. -/
inductive Ev where
  | scopeEnter (t : Nat) (mapping : List (Nat × String))
  | scopeExit (t : Nat)

/-- The thread performing an event. -/
def evThread : Ev → Nat
  | .scopeEnter t _ => t
  | .scopeExit t => t

/-- One step of the concurrent system.  `none` means the event cannot happen
now: an enter blocked on the global lock, an exit with no entered scope
(impossible under the `with` discipline), or an exit whose `__exit__` raised
(shown unreachable from the initial state by the invariant). -/
def stepFn (e : Ev) (s : Sys) : Option Sys :=
  match e with
  | .scopeEnter t m =>
    match lockingEnter t m s.g with
    | none => none
    | some (g', old) => some ⟨g', Function.update s.stks t (old :: s.stks t)⟩
  | .scopeExit t =>
    match s.stks t with
    | [] => none
    | old :: rest =>
      match lockingExit t old s.g with
      | (g', none) => some ⟨g', Function.update s.stks t rest⟩
      | (_, some _) => none

/-- Initial system state: lock free, every thread's `thread_data.depth`
attribute unset, no entered scopes. -/
def initSys (tab0 : Tables) : Sys :=
  ⟨{ tables := tab0, locked := none, depth := fun _ => none }, fun _ => []⟩

/-- States reachable from the initial state by steps of any threads. -/
inductive Reachable (tab0 : Tables) : Sys → Prop where
  | init : Reachable tab0 (initSys tab0)
  | step {s : Sys} {e : Ev} {s' : Sys} :
      Reachable tab0 s → stepFn e s = some s' → Reachable tab0 s'

/-- The integer value of a possibly-unset `thread_data.depth`. -/
def depthVal : Option Int → Int
  | none => 0
  | some d => d

/-- The lock-discipline invariant: each thread's depth counter counts its
entered scopes, and the lock is held by exactly the threads with a non-empty
scope stack. -/
def SysInv (s : Sys) : Prop :=
  (∀ u, depthVal (s.g.depth u) = ((s.stks u).length : Int)) ∧
  (∀ u, s.g.locked = some u ↔ s.stks u ≠ [])

/- Concrete states and runs used to witness theorems with hypotheses. -/

/-- A concrete initial global state: every model's table is `"pigeon"`, lock
free, depth attributes unset. -/
def demoG : GState := { tables := fun _ => "pigeon", locked := none, depth := fun _ => none }

/-- A body that raises (error code 7) without touching the state. -/
def demoBody : GState → Option Nat × GState := fun g => (some 7, g)

/-- A concrete locking run: override model 0 to `"skyrat"`, body raises. -/
def demoRunA : Option (Outcome Nat × GState) := runLocking 0 [(0, "skyrat")] demoBody demoG

/-- Final state of `demoRunA`. -/
def demoGA : GState :=
  match demoRunA with
  | some p => p.2
  | none => demoG

/-- Outcome of `demoRunA`. -/
def demoOutA : Outcome Nat :=
  match demoRunA with
  | some p => p.1
  | none => Outcome.ok

/-- A state whose thread 0 has `thread_data.depth` set to 0 (as after a
completed outermost scope), lock free. -/
def c3g : GState := { tables := fun _ => "pigeon", locked := none, depth := fun _ => some 0 }

/-- A concrete thread-local table view, all `"pigeon"`. -/
def demoT : Tables := fun _ => "pigeon"

/-- A raising body over plain table state. -/
def demoBodyT : Tables → Option Nat × Tables := fun tb => (some 7, tb)

/-- Outer concrete enter: model 5 overridden to `"skyrat"`. -/
def demo5E1 : Option (GState × List (Nat × String)) := lockingEnter 0 [(5, "skyrat")] demoG

/-- State after the outer concrete enter. -/
def demo5G1 : GState :=
  match demo5E1 with
  | some p => p.1
  | none => demoG

/-- `old_mapping` captured by the outer concrete enter. -/
def demo5O1 : List (Nat × String) :=
  match demo5E1 with
  | some p => p.2
  | none => []

/-- Inner concrete enter: model 5 overridden to `"columbidae"`. -/
def demo5E2 : Option (GState × List (Nat × String)) := lockingEnter 0 [(5, "columbidae")] demo5G1

/-- State after the inner concrete enter. -/
def demo5G2 : GState :=
  match demo5E2 with
  | some p => p.1
  | none => demo5G1

/-- `old_mapping` captured by the inner concrete enter. -/
def demo5O2 : List (Nat × String) :=
  match demo5E2 with
  | some p => p.2
  | none => []

/-- Concrete initial tables for the trace model. -/
def tabP : Tables := fun _ => "pigeon"

/-- Concrete initial system state. -/
def sys0 : Sys := initSys tabP

/-- Thread 0's outermost enter from the initial state. -/
def sysStepA : Option Sys := stepFn (Ev.scopeEnter 0 [(0, "skyrat")]) sys0

/-- The system state after thread 0's outermost enter. -/
def sysA : Sys :=
  match sysStepA with
  | some s => s
  | none => sys0

/-- A concrete enter used for the error-propagation run: model 0 overridden
to `"skyrat"`. -/
def demo7E : Option (GState × List (Nat × String)) := lockingEnter 0 [(0, "skyrat")] demoG

/-- State after `demo7E`. -/
def demo7G1 : GState :=
  match demo7E with
  | some p => p.1
  | none => demoG

/-- `old_mapping` captured by `demo7E`. -/
def demo7O1 : List (Nat × String) :=
  match demo7E with
  | some p => p.2
  | none => []

/-- A raising body for the replacement variant. -/
def demoBodyR : DerivedType → Tables → Option Nat × Tables := fun _ tb => (some 3, tb)

/-- An even-length argument list whose model is not a
`SwappableDbTableModel` subclass. -/
def c6bad : List PyObj := [PyObj.model ⟨0, false⟩, PyObj.str "skyrat"]

/-- Another even-length argument list with a non-subclass model. -/
def c10args : List PyObj := [PyObj.model ⟨1, false⟩, PyObj.str "columbidae"]

end OverrideDb

namespace OverrideDb

theorem installAll_nil (tab : Tables) : installAll [] tab = tab := rfl

theorem installAll_cons (p : Nat × String) (m : List (Nat × String)) (tab : Tables) :
    installAll (p :: m) tab = installAll m (Function.update tab p.1 p.2) := rfl

theorem installAll_not_mem (m : List (Nat × String)) (tab : Tables) (k : Nat)
    (h : k ∉ m.map Prod.fst) : installAll m tab k = tab k := by
  induction m generalizing tab with
  | nil => rfl
  | cons p rest ih =>
    simp only [List.map_cons, List.mem_cons, not_or] at h
    rw [installAll_cons, ih _ h.2, Function.update_noteq h.1]

theorem installAll_nodup_mem (m : List (Nat × String)) (tab : Tables) (k : Nat) (v : String)
    (hnd : (m.map Prod.fst).Nodup) (hmem : (k, v) ∈ m) : installAll m tab k = v := by
  induction m generalizing tab with
  | nil => cases hmem
  | cons p rest ih =>
    simp only [List.map_cons, List.nodup_cons] at hnd
    rcases List.mem_cons.mp hmem with h | h
    · subst h
      rw [installAll_cons]
      show installAll rest (Function.update tab k v) k = v
      rw [installAll_not_mem _ _ _ hnd.1, Function.update_same]
    · exact ih _ hnd.2 h

theorem captureAll_keys (m : List (Nat × String)) (tab : Tables) :
    (captureAll m tab).map Prod.fst = m.map Prod.fst := by
  induction m with
  | nil => rfl
  | cons p rest ih =>
    show p.1 :: (captureAll rest tab).map Prod.fst = p.1 :: rest.map Prod.fst
    rw [ih]

theorem captureAll_mem (m : List (Nat × String)) (tab : Tables) (k : Nat)
    (h : k ∈ m.map Prod.fst) : (k, tab k) ∈ captureAll m tab := by
  rcases List.mem_map.mp h with ⟨p, hp, hk⟩
  exact List.mem_map.mpr ⟨p, hp, by rw [← hk]⟩

/-- Restoring a capture puts every captured key back to its captured value,
whatever happened to the state in between. -/
theorem installAll_captureAll (m : List (Nat × String)) (tab mid : Tables) (k : Nat)
    (hnd : (m.map Prod.fst).Nodup) (h : k ∈ m.map Prod.fst) :
    installAll (captureAll m tab) mid k = tab k := by
  refine installAll_nodup_mem _ _ _ _ ?_ (captureAll_mem m tab k h)
  rw [captureAll_keys]; exact hnd

/-- What a successful `__enter__` guarantees: table effect, captured mapping,
new depth, and the lock effect in the outermost (`dNext = 1`) and nested
cases. -/
theorem lockingEnter_spec (t : Nat) (mapping : List (Nat × String)) (g g' : GState)
    (old : List (Nat × String)) (h : lockingEnter t mapping g = some (g', old)) :
    g'.tables = installAll mapping g.tables ∧
    old = captureAll mapping g.tables ∧
    g'.depth = Function.update g.depth t (some (dNext g t)) ∧
    (dNext g t = 1 → g.locked = none ∧ g'.locked = some t) ∧
    (dNext g t ≠ 1 → g'.locked = g.locked) := by
  unfold lockingEnter at h
  by_cases hd : dNext g t = 1
  · simp only [hd, if_pos rfl] at h
    cases hl : g.locked with
    | some u => simp [hl] at h
    | none =>
      simp only [hl, Option.map_some] at h
      cases h
      refine ⟨rfl, rfl, ?_, fun _ => ⟨rfl, rfl⟩, fun hne => absurd hd hne⟩
      rw [hd]
  · simp only [if_neg hd, Option.map_some] at h
    cases h
    exact ⟨rfl, rfl, rfl, fun h1 => absurd h1 hd, fun _ => rfl⟩

/-- `__exit__` restores the captured tables unconditionally, in every
branch. -/
theorem lockingExit_tables (t : Nat) (old : List (Nat × String)) (g : GState) :
    (lockingExit t old g).1.tables = installAll old g.tables := by
  unfold lockingExit
  cases hd : g.depth t with
  | none => simp only [hd]
  | some d =>
    simp only [hd, Function.update_same]
    by_cases h0 : d - 1 = 0
    · simp only [if_pos h0]
      cases g.locked <;> rfl
    · simp only [if_neg h0]

/-- `__exit__` at a set depth other than 1: decrement only; no lock action,
no error. -/
theorem lockingExit_eq_nested (t : Nat) (old : List (Nat × String)) (g : GState) (d : Int)
    (hd : g.depth t = some d) (h1 : d ≠ 1) :
    lockingExit t old g =
      ({ tables := installAll old g.tables, locked := g.locked,
         depth := Function.update g.depth t (some (d - 1)) }, none) := by
  unfold lockingExit
  simp only [hd, Function.update_same]
  have h0 : ¬d - 1 = 0 := by omega
  simp only [if_neg h0]

/-- `__exit__` at a set depth 1 with the lock held: decrement and release;
no error. -/
theorem lockingExit_eq_release (t : Nat) (old : List (Nat × String)) (g : GState) (u : Nat)
    (hd : g.depth t = some 1) (hl : g.locked = some u) :
    lockingExit t old g =
      ({ tables := installAll old g.tables, locked := none,
         depth := Function.update g.depth t (some 0) }, none) := by
  unfold lockingExit
  simp only [hd, Function.update_same]
  have h0 : (1 : Int) - 1 = 0 := by omega
  simp only [if_pos h0, hl]
  norm_num

/-- `__exit__` at a set depth 1 with the lock free: `lock.release()`
raises. -/
theorem lockingExit_eq_unheld (t : Nat) (old : List (Nat × String)) (g : GState)
    (hd : g.depth t = some 1) (hl : g.locked = none) :
    lockingExit t old g =
      ({ tables := installAll old g.tables, locked := none,
         depth := Function.update g.depth t (some 0) }, some PyErr.threadError) := by
  unfold lockingExit
  simp only [hd, Function.update_same]
  have h0 : (1 : Int) - 1 = 0 := by omega
  simp only [if_pos h0, hl]
  norm_num

/-- `__exit__` with `thread_data.depth` never set: the decrement's
`AttributeError` is swallowed, but `if thread_data.depth == 0` raises it
again; the lock is untouched and the tables are already restored. -/
theorem lockingExit_eq_unset (t : Nat) (old : List (Nat × String)) (g : GState)
    (hd : g.depth t = none) :
    lockingExit t old g =
      ({ tables := installAll old g.tables, locked := g.locked, depth := g.depth },
        some PyErr.attributeError) := by
  unfold lockingExit
  simp only [hd]

theorem dNext_eq (g : GState) (t : Nat) : dNext g t = depthVal (g.depth t) + 1 := by
  cases h : g.depth t <;> simp [dNext, depthVal, h]

theorem sysInv_init (tab0 : Tables) : SysInv (initSys tab0) := by
  constructor
  · intro u; simp [initSys, depthVal]
  · intro u; simp [initSys]

/-- If two threads both have entered scopes, they are the same thread
(each would have to hold the single global lock). -/
theorem active_unique {s : Sys} (hInv : SysInv s) {t u : Nat}
    (ht : s.stks t ≠ []) (hu : s.stks u ≠ []) : t = u := by
  have h1 := (hInv.2 t).mpr ht
  have h2 := (hInv.2 u).mpr hu
  rw [h1] at h2
  exact Option.some.inj h2

/-- A thread with entered scopes has its depth attribute set to the number
of scopes on its stack. -/
theorem depth_of_stks {s : Sys} (hInv : SysInv s) (t : Nat) :
    s.g.depth t = some ((s.stks t).length : Int) ∨
      (s.g.depth t = none ∧ s.stks t = []) := by
  have h1 := hInv.1 t
  cases hd : s.g.depth t with
  | none =>
    right
    refine ⟨rfl, ?_⟩
    rw [hd] at h1
    simp only [depthVal] at h1
    have : (s.stks t).length = 0 := by exact_mod_cast h1.symm
    exact List.length_eq_zero.mp this
  | some d =>
    left
    rw [hd] at h1
    simp only [depthVal] at h1
    rw [h1]

/-- The lock-discipline invariant is preserved by every step. -/
theorem sysInv_step {s s' : Sys} {e : Ev} (hInv : SysInv s)
    (h : stepFn e s = some s') : SysInv s' := by
  obtain ⟨hdep, hlk⟩ := hInv
  cases e with
  | scopeEnter t m =>
    simp only [stepFn] at h
    split at h
    · cases h
    · rename_i p g' old heq
      cases h
      obtain ⟨-, -, hdep', hacq, hkeep⟩ := lockingEnter_spec t m s.g g' old heq
      refine ⟨?_, ?_⟩
      · intro u
        by_cases hu : u = t
        · subst hu
          have hdvs : depthVal (some (dNext s.g u)) = depthVal (s.g.depth u) + 1 := by
            show dNext s.g u = depthVal (s.g.depth u) + 1
            exact dNext_eq s.g u
          rw [hdep']
          show depthVal (Function.update s.g.depth u (some (dNext s.g u)) u) =
            ((Function.update s.stks u (old :: s.stks u) u).length : Int)
          rw [Function.update_same, Function.update_same, hdvs, hdep u, List.length_cons]
          push_cast
          ring
        · show depthVal (g'.depth u) = ((Function.update s.stks t (old :: s.stks t) u).length : Int)
          rw [hdep', Function.update_noteq hu, Function.update_noteq hu]
          exact hdep u
      · by_cases hempty : s.stks t = []
        · -- outermost enter: depth was 0/unset, lock acquired
          have hdv : depthVal (s.g.depth t) = 0 := by
            rw [hdep t, hempty]; simp
          have hd1 : dNext s.g t = 1 := by rw [dNext_eq, hdv]; norm_num
          obtain ⟨hla, hlb⟩ := hacq hd1
          have hothers : ∀ u, s.stks u = [] := by
            intro u
            by_contra hne
            have hc := (hlk u).mpr hne
            rw [hla] at hc
            cases hc
          intro u
          show g'.locked = some u ↔ Function.update s.stks t (old :: s.stks t) u ≠ []
          by_cases hu : u = t
          · subst hu
            rw [hlb, Function.update_same]
            constructor
            · intro _; exact List.cons_ne_nil _ _
            · intro _; rfl
          · rw [hlb, Function.update_noteq hu, hothers u]
            constructor
            · intro hc
              exact absurd (Option.some.inj hc) (fun hh => hu hh.symm)
            · intro hc; exact absurd rfl hc
        · -- nested enter: depth stays positive, lock untouched
          have hlt : s.g.locked = some t := (hlk t).mpr hempty
          have hd1 : dNext s.g t ≠ 1 := by
            rw [dNext_eq, hdep t]
            have hlen : (s.stks t).length ≠ 0 := fun hc => hempty (List.length_eq_zero.mp hc)
            omega
          have hlk2 := hkeep hd1
          intro u
          show g'.locked = some u ↔ Function.update s.stks t (old :: s.stks t) u ≠ []
          by_cases hu : u = t
          · subst hu
            rw [hlk2, hlt, Function.update_same]
            constructor
            · intro _; exact List.cons_ne_nil _ _
            · intro _; rfl
          · rw [hlk2, hlt, Function.update_noteq hu]
            constructor
            · intro hc
              exact absurd (Option.some.inj hc) (fun hh => hu hh.symm)
            · intro hc
              exact absurd (active_unique ⟨hdep, hlk⟩ hc hempty) hu
  | scopeExit t =>
    simp only [stepFn] at h
    split at h
    · cases h
    · rename_i old rest hst
      have hne : s.stks t ≠ [] := by rw [hst]; exact List.cons_ne_nil _ _
      have hlt : s.g.locked = some t := (hlk t).mpr hne
      have hdt : s.g.depth t = some ((s.stks t).length : Int) := by
        rcases depth_of_stks ⟨hdep, hlk⟩ t with h1 | ⟨-, h2⟩
        · exact h1
        · exact absurd h2 hne
      rw [hst] at hdt
      by_cases hrest : rest = []
      · -- depth 1 → 0: release
        subst hrest
        have hd1 : s.g.depth t = some 1 := by
          rw [hdt]; norm_num
        rw [lockingExit_eq_release t old s.g t hd1 hlt] at h
        split at h
        · rename_i g2 heq2
          injection heq2 with heqa heqb
          cases h
          subst heqa
          refine ⟨?_, ?_⟩
          · intro u
            by_cases hu : u = t
            · subst hu
              show depthVal (Function.update s.g.depth u (some 0) u) =
                ((Function.update s.stks u [] u).length : Int)
              rw [Function.update_same, Function.update_same]
              rfl
            · show depthVal (Function.update s.g.depth t (some 0) u) =
                ((Function.update s.stks t [] u).length : Int)
              rw [Function.update_noteq hu, Function.update_noteq hu]
              exact hdep u
          · intro u
            show none = some u ↔ Function.update s.stks t [] u ≠ []
            by_cases hu : u = t
            · subst hu
              rw [Function.update_same]
              constructor
              · intro hc; cases hc
              · intro hc; exact absurd rfl hc
            · rw [Function.update_noteq hu]
              constructor
              · intro hc; cases hc
              · intro hc
                exact absurd (active_unique ⟨hdep, hlk⟩ hc hne) hu
        · rename_i pe heq2
          injection heq2 with heqa heqb
          cases heqb
      · -- nested exit: decrement only
        have hd2 : s.g.depth t = some ((rest.length : Int) + 1) := by
          rw [hdt]
          norm_num [List.length_cons]
        have hne1 : ((rest.length : Int) + 1) ≠ 1 := by
          have hlen : rest.length ≠ 0 := fun hc => hrest (List.length_eq_zero.mp hc)
          omega
        rw [lockingExit_eq_nested t old s.g _ hd2 hne1] at h
        split at h
        · rename_i g2 heq2
          injection heq2 with heqa heqb
          cases h
          subst heqa
          refine ⟨?_, ?_⟩
          · intro u
            by_cases hu : u = t
            · subst hu
              show depthVal (Function.update s.g.depth u (some ((rest.length : Int) + 1 - 1)) u) =
                ((Function.update s.stks u rest u).length : Int)
              rw [Function.update_same, Function.update_same]
              show (rest.length : Int) + 1 - 1 = (rest.length : Int)
              ring
            · show depthVal (Function.update s.g.depth t (some ((rest.length : Int) + 1 - 1)) u) =
                ((Function.update s.stks t rest u).length : Int)
              rw [Function.update_noteq hu, Function.update_noteq hu]
              exact hdep u
          · intro u
            show s.g.locked = some u ↔ Function.update s.stks t rest u ≠ []
            by_cases hu : u = t
            · subst hu
              rw [hlt, Function.update_same]
              constructor
              · intro _; exact hrest
              · intro _; rfl
            · rw [hlt, Function.update_noteq hu]
              constructor
              · intro hc
                exact absurd (Option.some.inj hc) (fun hh => hu hh.symm)
              · intro hc
                exact absurd (active_unique ⟨hdep, hlk⟩ hc hne) hu
        · rename_i pe heq2
          injection heq2 with heqa heqb
          cases heqb

/-- Every reachable state satisfies the lock-discipline invariant. -/
theorem sysInv_reachable {tab0 : Tables} {s : Sys} (hr : Reachable tab0 s) : SysInv s := by
  induction hr with
  | init => exact sysInv_init tab0
  | step _ h ih => exact sysInv_step ih h

theorem installAll_single (k : Nat) (v : String) (tab : Tables) :
    installAll [(k, v)] tab = Function.update tab k v := rfl

theorem captureAll_single (k : Nat) (v : String) (tab : Tables) :
    captureAll [(k, v)] tab = [(k, tab k)] := rfl

/-- Claim C1: for every valid (even-length, pairable, distinct-key) mapping
and every model in it, the storage identifier read after the override
scope's exit equals the identifier read just before that scope's entry —
for `LockingOverrideDatabaseTables` and `OverrideDatabaseTables`, with the
scope body arbitrary (so the statement covers bodies that complete
normally, bodies that raise, and bodies containing properly nested
scopes). -/
theorem c1_identifier_restored :
    (∀ (ε : Type) (t : Nat) (mapping : List (Nat × String)),
      (mapping.map Prod.fst).Nodup →
      ∀ (body : GState → Option ε × GState) (g : GState) (out : Outcome ε) (g' : GState),
        runLocking t mapping body g = some (out, g') →
        ∀ k ∈ mapping.map Prod.fst, g'.tables k = g.tables k) ∧
    (∀ (ε : Type) (mapping : List (Nat × String)),
      (mapping.map Prod.fst).Nodup →
      ∀ (body : Tables → Option ε × Tables) (tab : Tables),
        ∀ k ∈ mapping.map Prod.fst, (runOverride mapping body tab).2 k = tab k) := by
  constructor
  · intro ε t mapping hnd body g out g' h k hk
    unfold runLocking at h
    split at h
    · cases h
    · rename_i p g1 old heq
      have h2 := Option.some.inj h
      have hg' : (lockingExit t old (body g1).2).1 = g' := congrArg Prod.snd h2
      obtain ⟨-, hold, -, -, -⟩ := lockingEnter_spec t mapping g g1 old heq
      rw [← hg', lockingExit_tables, hold]
      exact installAll_captureAll mapping g.tables _ k hnd hk
  · intro ε mapping hnd body tab k hk
    exact installAll_captureAll mapping tab _ k hnd hk

theorem demoRunA_eq : demoRunA = some (demoOutA, demoGA) := rfl

/-- Witness for C1: a concrete raising run of each variant restores model
identifiers to their pre-entry `"pigeon"`. -/
theorem c1_identifier_restored_witness :
    demoGA.tables 0 = "pigeon" ∧
    (runOverride [(0, "skyrat")] demoBodyT demoT).2 0 = "pigeon" :=
  ⟨c1_identifier_restored.1 Nat 0 [(0, "skyrat")] (by decide) demoBody demoG demoOutA demoGA
      demoRunA_eq 0 (by decide),
    c1_identifier_restored.2 Nat [(0, "skyrat")] (by decide) demoBodyT demoT 0 (by decide)⟩

/-- Claim C5: for properly nested scopes S1 (outer) and S2 (inner) on the
same model — distinct scope instances, each with its own captured
`old_mapping` — the identifier during S2 equals S2's value, after S2's exit
it equals S1's value, and after S1's exit it equals the pre-S1 value (LIFO
restoration). -/
theorem c5_nested_lifo (g0 g1 g2 : GState) (old1 old2 : List (Nat × String)) (t k : Nat)
    (a b : String)
    (h1 : lockingEnter t [(k, a)] g0 = some (g1, old1))
    (h2 : lockingEnter t [(k, b)] g1 = some (g2, old2)) :
    g1.tables k = a ∧ g2.tables k = b ∧
    (lockingExit t old2 g2).1.tables k = a ∧
    (lockingExit t old1 (lockingExit t old2 g2).1).1.tables k = g0.tables k := by
  obtain ⟨ht1, ho1, -, -, -⟩ := lockingEnter_spec t [(k, a)] g0 g1 old1 h1
  obtain ⟨ht2, ho2, -, -, -⟩ := lockingEnter_spec t [(k, b)] g1 g2 old2 h2
  have e1 : g1.tables k = a := by
    rw [ht1, installAll_single, Function.update_same]
  have e2 : g2.tables k = b := by
    rw [ht2, installAll_single, Function.update_same]
  have e3 : (lockingExit t old2 g2).1.tables k = a := by
    rw [lockingExit_tables, ho2, captureAll_single, installAll_single,
      Function.update_same, e1]
  have e4 : (lockingExit t old1 (lockingExit t old2 g2).1).1.tables k = g0.tables k := by
    rw [lockingExit_tables, ho1, captureAll_single, installAll_single,
      Function.update_same]
  exact ⟨e1, e2, e3, e4⟩

theorem demo5E1_eq : lockingEnter 0 [(5, "skyrat")] demoG = some (demo5G1, demo5O1) := rfl

theorem demo5E2_eq : lockingEnter 0 [(5, "columbidae")] demo5G1 = some (demo5G2, demo5O2) := rfl

/-- Witness for C5 at a concrete nested pair of scopes over model 5. -/
theorem c5_nested_lifo_witness :
    demo5G1.tables 5 = "skyrat" ∧ demo5G2.tables 5 = "columbidae" ∧
    (lockingExit 0 demo5O2 demo5G2).1.tables 5 = "skyrat" ∧
    (lockingExit 0 demo5O1 (lockingExit 0 demo5O2 demo5G2).1).1.tables 5 = "pigeon" :=
  c5_nested_lifo demoG demo5G1 demo5G2 demo5O1 demo5O2 0 5 "skyrat" "columbidae"
    demo5E1_eq demo5E2_eq

/-- Claim C3 as stated is false on the code: with `thread_data.depth` set
to 0, `__exit__` does not raise and does not release the lock, but the
`try`-guarded decrement succeeds, so the depth counter underflows to -1
instead of staying non-negative. -/
theorem c3_counterexample :
    c3g.depth 0 = some 0 ∧
    (lockingExit 0 [] c3g).1.depth 0 = some (-1) ∧ ((-1 : Int) < 0) :=
  ⟨rfl, by decide, by norm_num⟩

/-- Claim C3 (amended): calling `__exit__` with the thread's depth counter
set and already zero does not raise and leaves the lock untouched, but it
is not a no-op on the depth: the counter is decremented to -1. -/
theorem c3_exit_at_zero (g : GState) (t : Nat) (old : List (Nat × String))
    (h : g.depth t = some 0) :
    (lockingExit t old g).2 = none ∧
    (lockingExit t old g).1.locked = g.locked ∧
    (lockingExit t old g).1.depth t = some (-1) := by
  have h0 : (0 : Int) ≠ 1 := by norm_num
  rw [lockingExit_eq_nested t old g 0 h h0]
  refine ⟨rfl, rfl, ?_⟩
  show Function.update g.depth t (some (0 - 1)) t = some (-1)
  rw [Function.update_same]
  norm_num

/-- Witness for the amended C3 at the concrete depth-zero state. -/
theorem c3_exit_at_zero_witness :
    (lockingExit 0 [] c3g).2 = none ∧
    (lockingExit 0 [] c3g).1.locked = c3g.locked ∧
    (lockingExit 0 [] c3g).1.depth 0 = some (-1) :=
  c3_exit_at_zero c3g 0 [] rfl

/-- An outermost enter (`dNext = 1`) with the lock free succeeds and
acquires the lock. -/
theorem lockingEnter_outermost (t : Nat) (m : List (Nat × String)) (g : GState)
    (hd : dNext g t = 1) (hl : g.locked = none) :
    lockingEnter t m g =
      some ({ tables := installAll m g.tables, locked := some t,
              depth := Function.update g.depth t (some (dNext g t)) },
            captureAll m g.tables) := by
  unfold lockingEnter
  rw [hd]
  simp only [hl, if_pos]
  rfl

/-- An outermost enter with the lock held blocks (`lock.acquire()` does not
return). -/
theorem lockingEnter_blocked (t : Nat) (m : List (Nat × String)) (g : GState) (u : Nat)
    (hd : dNext g t = 1) (hl : g.locked = some u) :
    lockingEnter t m g = none := by
  unfold lockingEnter
  rw [hd]
  simp only [hl, if_pos]
  rfl

/-- A nested enter (`dNext ≠ 1`) never touches the lock and always
succeeds. -/
theorem lockingEnter_nested (t : Nat) (m : List (Nat × String)) (g : GState)
    (hd : dNext g t ≠ 1) :
    lockingEnter t m g =
      some ({ tables := installAll m g.tables, locked := g.locked,
              depth := Function.update g.depth t (some (dNext g t)) },
            captureAll m g.tables) := by
  unfold lockingEnter
  simp only [if_neg hd]
  rfl

/-- Claim C2: while thread A has a non-empty override stack, every possible
step belongs to A — in particular any other thread's outermost enter blocks
— and once the lock is free (the whole stack has unwound) any thread's
outermost enter is enabled again.  Hence complete enter/exit sequences of
distinct threads never interleave. -/
theorem c2_no_interleaving (tab0 : Tables) (s : Sys) (hr : Reachable tab0 s) (A : Nat) :
    (s.stks A ≠ [] →
      (∀ e s', stepFn e s = some s' → evThread e = A) ∧
      (∀ B m, B ≠ A → stepFn (Ev.scopeEnter B m) s = none)) ∧
    (s.g.locked = none →
      ∀ B m, stepFn (Ev.scopeEnter B m) s ≠ none) := by
  obtain ⟨hdep, hlk⟩ := sysInv_reachable hr
  constructor
  · intro hA
    have hblock : ∀ B m, B ≠ A → stepFn (Ev.scopeEnter B m) s = none := by
      intro B m hBA
      have hsB : s.stks B = [] := by
        by_contra hne
        exact hBA (active_unique ⟨hdep, hlk⟩ hne hA)
      have hlkA : s.g.locked = some A := (hlk A).mpr hA
      have hdB : dNext s.g B = 1 := by
        rw [dNext_eq, hdep B, hsB]
        norm_num
      simp only [stepFn, lockingEnter_blocked B m s.g A hdB hlkA]
    refine ⟨?_, hblock⟩
    intro e s' hstep
    cases e with
    | scopeEnter B m =>
      show B = A
      by_contra hBA
      rw [hblock B m hBA] at hstep
      cases hstep
    | scopeExit B =>
      show B = A
      by_contra hBA
      have hsB : s.stks B = [] := by
        by_contra hne
        exact hBA (active_unique ⟨hdep, hlk⟩ hne hA)
      simp only [stepFn] at hstep
      split at hstep
      · cases hstep
      · rename_i old rest hst
        rw [hsB] at hst
        cases hst
  · intro hfree B m
    have hsB : s.stks B = [] := by
      by_contra hne
      have hc := (hlk B).mpr hne
      rw [hfree] at hc
      cases hc
    have hdB : dNext s.g B = 1 := by
      rw [dNext_eq, hdep B, hsB]
      norm_num
    simp only [stepFn, lockingEnter_outermost B m s.g hdB hfree]
    intro hc
    cases hc

theorem sysA_eq : stepFn (Ev.scopeEnter 0 [(0, "skyrat")]) sys0 = some sysA := rfl

theorem reachable_sysA : Reachable tabP sysA := Reachable.step Reachable.init sysA_eq

/-- Witness for C2: from the concrete state where thread 0 holds an active
scope, thread 1's outermost enter is blocked. -/
theorem c2_no_interleaving_witness :
    stepFn (Ev.scopeEnter 1 [(0, "columbidae")]) sysA = none :=
  ((c2_no_interleaving tabP sysA reachable_sysA 0).1 (by decide)).2 1 [(0, "columbidae")]
    (by decide)

/-- Claim C4: in every reachable state the global lock is held exactly by a
thread with at least one active scope; an enter acquires the lock exactly
at the 0-to-1 depth transition (and then the lock was free before); an exit
releases it exactly at the 1-to-0 transition; nested enters and exits never
change the lock. -/
theorem c4_lock_discipline (tab0 : Tables) (s : Sys) (hr : Reachable tab0 s) :
    (∀ u, s.g.locked = some u ↔ s.stks u ≠ []) ∧
    (∀ t m s', stepFn (Ev.scopeEnter t m) s = some s' →
      (s.stks t = [] → s.g.locked = none ∧ s'.g.locked = some t) ∧
      (s.stks t ≠ [] → s'.g.locked = s.g.locked)) ∧
    (∀ t s', stepFn (Ev.scopeExit t) s = some s' →
      ((s.stks t).length = 1 → s.g.locked = some t ∧ s'.g.locked = none) ∧
      (2 ≤ (s.stks t).length → s'.g.locked = s.g.locked)) := by
  obtain ⟨hdep, hlk⟩ := sysInv_reachable hr
  refine ⟨hlk, ?_, ?_⟩
  · intro t m s' h
    simp only [stepFn] at h
    split at h
    · cases h
    · rename_i p g' old heq
      cases h
      obtain ⟨-, -, -, hacq, hkeep⟩ := lockingEnter_spec t m s.g g' old heq
      constructor
      · intro hempty
        have hd1 : dNext s.g t = 1 := by
          rw [dNext_eq, hdep t, hempty]
          norm_num
        exact hacq hd1
      · intro hne
        have hd1 : dNext s.g t ≠ 1 := by
          rw [dNext_eq, hdep t]
          have hlen : (s.stks t).length ≠ 0 := fun hc => hne (List.length_eq_zero.mp hc)
          omega
        exact hkeep hd1
  · intro t s' h
    simp only [stepFn] at h
    split at h
    · cases h
    · rename_i old rest hst
      have hne : s.stks t ≠ [] := by rw [hst]; exact List.cons_ne_nil _ _
      have hlt : s.g.locked = some t := (hlk t).mpr hne
      have hdt : s.g.depth t = some ((s.stks t).length : Int) := by
        rcases depth_of_stks ⟨hdep, hlk⟩ t with h1 | ⟨-, h2⟩
        · exact h1
        · exact absurd h2 hne
      constructor
      · intro hlen1
        refine ⟨hlt, ?_⟩
        have hd1 : s.g.depth t = some 1 := by rw [hdt, hlen1]; norm_num
        rw [lockingExit_eq_release t old s.g t hd1 hlt] at h
        split at h
        · rename_i g2 heq2
          injection heq2 with heqa heqb
          cases h
          rw [← heqa]
        · rename_i pe heq2
          injection heq2 with heqa heqb
          cases heqb
      · intro hlen2
        have hne1 : ((s.stks t).length : Int) ≠ 1 := by
          have hc : (2 : Int) ≤ ((s.stks t).length : Int) := by exact_mod_cast hlen2
          omega
        rw [lockingExit_eq_nested t old s.g _ hdt hne1] at h
        split at h
        · rename_i g2 heq2
          injection heq2 with heqa heqb
          cases h
          rw [← heqa]
        · rename_i pe heq2
          injection heq2 with heqa heqb
          cases heqb

/-- Witness for C4: from the concrete initial state, thread 0's outermost
enter finds the lock free and acquires it. -/
theorem c4_lock_discipline_witness :
    sys0.g.locked = none ∧ sysA.g.locked = some 0 :=
  ((c4_lock_discipline tabP sys0 Reachable.init).2.1 0 [(0, "skyrat")] sysA sysA_eq).1 rfl

/-- Unfolding a locking run whose enter succeeded. -/
theorem runLocking_eq {ε : Type} (t : Nat) (mapping : List (Nat × String))
    (body : GState → Option ε × GState) (g g1 : GState) (old : List (Nat × String))
    (henter : lockingEnter t mapping g = some (g1, old)) :
    runLocking t mapping body g =
      some
        (match (lockingExit t old (body g1).2).2 with
         | some pe => Outcome.internal pe
         | none => settle false (body g1).1,
         (lockingExit t old (body g1).2).1) := by
  unfold runLocking
  rw [henter]

/-- Claim C7: for each variant, an error raised by the scope body
propagates unchanged to the caller (`__exit__` returns `False` and never
masks it), and restoration — and for the locking variant, unlocking at the
outermost level — still runs on the error path.  For the locking variant
the body is assumed to leave the thread's depth counter and the lock as it
found them, as any properly nested body does. -/
theorem c7_error_propagation :
    (∀ (ε : Type) (mapping : List (Nat × String)) (body : Tables → Option ε × Tables)
        (tab : Tables) (e : ε),
      (body (installAll mapping tab)).1 = some e →
      (runOverride mapping body tab).1 = Outcome.raised e ∧
      (runOverride mapping body tab).2 =
        installAll (captureAll mapping tab) (body (installAll mapping tab)).2) ∧
    (∀ (ε : Type) (base : Nat) (db_table ts : String) (tid : Nat)
        (body : DerivedType → Tables → Option ε × Tables) (tab : Tables) (e : ε),
      (body (replaceEnter base db_table ts tid tab).1 tab).1 = some e →
      (runReplace base db_table ts tid body tab).1 = Outcome.raised e ∧
      (runReplace base db_table ts tid body tab).2 =
        (body (replaceEnter base db_table ts tid tab).1 tab).2) ∧
    (∀ (ε : Type) (t : Nat) (mapping : List (Nat × String)) (g g1 : GState)
        (old : List (Nat × String)) (body : GState → Option ε × GState) (e : ε),
      lockingEnter t mapping g = some (g1, old) →
      (body g1).1 = some e →
      (body g1).2.depth t = g1.depth t →
      (body g1).2.locked = g1.locked →
      runLocking t mapping body g =
        some (Outcome.raised e, (lockingExit t old (body g1).2).1) ∧
      (lockingExit t old (body g1).2).2 = none ∧
      (lockingExit t old (body g1).2).1.tables = installAll old (body g1).2.tables ∧
      (dNext g t = 1 → (lockingExit t old (body g1).2).1.locked = none)) := by
  refine ⟨?_, ?_, ?_⟩
  · intro ε mapping body tab e hb
    constructor
    · show settle false (body (installAll mapping tab)).1 = Outcome.raised e
      rw [hb]
      rfl
    · rfl
  · intro ε base db_table ts tid body tab e hb
    constructor
    · show settle false (body (replaceEnter base db_table ts tid tab).1 tab).1 =
        Outcome.raised e
      rw [hb]
      rfl
    · rfl
  · intro ε t mapping g g1 old body e henter hb hdp hlp
    obtain ⟨-, -, hdep', hacq, -⟩ := lockingEnter_spec t mapping g g1 old henter
    have hg1d : g1.depth t = some (dNext g t) := by
      rw [hdep']
      exact Function.update_same _ _ _
    have hbd : (body g1).2.depth t = some (dNext g t) := hdp.trans hg1d
    by_cases hD : dNext g t = 1
    · have hble : (body g1).2.locked = some t := by
        rw [hlp]
        exact (hacq hD).2
      have hx := lockingExit_eq_release t old (body g1).2 t (by rw [hbd, hD]) hble
      refine ⟨?_, ?_, lockingExit_tables t old (body g1).2, fun _ => ?_⟩
      · rw [runLocking_eq t mapping body g g1 old henter, hx, hb]
        rfl
      · rw [hx]
      · rw [hx]
    · have hx := lockingExit_eq_nested t old (body g1).2 (dNext g t) hbd hD
      refine ⟨?_, ?_, lockingExit_tables t old (body g1).2, fun h1 => absurd h1 hD⟩
      · rw [runLocking_eq t mapping body g g1 old henter, hx, hb]
        rfl
      · rw [hx]

theorem demo7E_eq : lockingEnter 0 [(0, "skyrat")] demoG = some (demo7G1, demo7O1) := rfl

/-- Witness for C7: concrete raising runs of all three variants propagate
the body's error. -/
theorem c7_error_propagation_witness :
    runLocking 0 [(0, "skyrat")] demoBody demoG =
      some (Outcome.raised 7, (lockingExit 0 demo7O1 (demoBody demo7G1).2).1) ∧
    (runOverride [(0, "skyrat")] demoBodyT demoT).1 = Outcome.raised 7 ∧
    (runReplace 0 "skyrat" "1425464337.250000" 11 demoBodyR demoT).1 = Outcome.raised 3 :=
  ⟨(c7_error_propagation.2.2 Nat 0 [(0, "skyrat")] demoG demo7G1 demo7O1 demoBody 7
      demo7E_eq rfl rfl rfl).1,
    (c7_error_propagation.1 Nat [(0, "skyrat")] demoBodyT demoT 7 rfl).1,
    (c7_error_propagation.2.1 Nat 0 "skyrat" "1425464337.250000" 11 demoBodyR demoT 3 rfl).1⟩

theorem lockingInit_ok (args : List PyObj) (g : GState) (hlen : args.length % 2 = 0) :
    lockingInit args g = (Except.ok ((evens args).zip (odds args)), g) := by
  unfold lockingInit
  rw [if_neg (by omega)]

theorem overrideInit_ok (args : List PyObj) (g : GState) (hlen : args.length % 2 = 0)
    (hall : ∀ o ∈ evens args, isSwappableModel o = true) :
    overrideInit args g = (Except.ok ((evens args).zip (odds args)), g) := by
  have h1 : (evens args).any (fun o => !isClassArg o) = false := by
    rw [List.any_eq_false]
    intro o ho
    have hs := hall o ho
    cases o with
    | model m => simp [isClassArg]
    | str s => simp [isSwappableModel] at hs
  have h2 : (evens args).any (fun o => !isSwappableModel o) = false := by
    rw [List.any_eq_false]
    intro o ho
    rw [hall o ho]
    simp
  unfold overrideInit
  rw [if_neg (by omega), h1, h2]
  rfl

theorem overrideInit_attrError (args : List PyObj) (g : GState)
    (hlen : args.length % 2 = 0)
    (hcls : ∀ o ∈ evens args, isClassArg o = true)
    (hex : ∃ o ∈ evens args, isSwappableModel o = false) :
    overrideInit args g = (Except.error PyErr.attributeError, g) := by
  have h1 : (evens args).any (fun o => !isClassArg o) = false := by
    rw [List.any_eq_false]
    intro o ho
    rw [hcls o ho]
    simp
  have h2 : (evens args).any (fun o => !isSwappableModel o) = true := by
    rw [List.any_eq_true]
    obtain ⟨o, ho, hno⟩ := hex
    exact ⟨o, ho, by rw [hno]; rfl⟩
  unfold overrideInit
  rw [if_neg (by omega), h1, h2]
  rfl

/-- Claim C6 as stated is false on the code: `OverrideDatabaseTables` with
an even number of arguments does not always succeed — a model that is not a
`SwappableDbTableModel` subclass is rejected with `AttributeError`. -/
theorem c6_counterexample :
    c6bad.length % 2 = 0 ∧
    (overrideInit c6bad demoG).1 = Except.error PyErr.attributeError :=
  ⟨rfl, rfl⟩

/-- Claim C6 (amended): an odd number of positional arguments raises
`ValueError` in both constructors, before any state mutation; with an even
number of arguments the `LockingOverrideDatabaseTables` constructor always
succeeds (storing the paired mapping, mutating nothing), and the
`OverrideDatabaseTables` constructor succeeds — also mutating nothing —
provided every even-position argument passes the `SwappableDbTableModel`
check. -/
theorem c6_constructor_validation (args : List PyObj) (g : GState) :
    (args.length % 2 = 1 →
      lockingInit args g = (Except.error PyErr.valueError, g) ∧
      overrideInit args g = (Except.error PyErr.valueError, g)) ∧
    (args.length % 2 = 0 →
      lockingInit args g = (Except.ok ((evens args).zip (odds args)), g) ∧
      ((∀ o ∈ evens args, isSwappableModel o = true) →
        overrideInit args g = (Except.ok ((evens args).zip (odds args)), g))) := by
  constructor
  · intro h1
    have hne : args.length % 2 ≠ 0 := by omega
    constructor
    · unfold lockingInit
      rw [if_pos hne]
    · unfold overrideInit
      rw [if_pos hne]
  · intro h0
    exact ⟨lockingInit_ok args g h0, fun hall => overrideInit_ok args g h0 hall⟩

/-- Witness for the amended C6: a one-element argument list is rejected
with `ValueError`; the even-length `c6bad` is accepted by the locking
constructor. -/
theorem c6_constructor_validation_witness :
    lockingInit [PyObj.str "x"] demoG = (Except.error PyErr.valueError, demoG) ∧
    lockingInit c6bad demoG = (Except.ok ((evens c6bad).zip (odds c6bad)), demoG) :=
  ⟨((c6_constructor_validation [PyObj.str "x"] demoG).1 rfl).1,
    ((c6_constructor_validation c6bad demoG).2 rfl).1⟩

/-- Claim C10: with an even number of arguments all of which are classes in
the even positions, the `OverrideDatabaseTables` constructor raises
`AttributeError` (before any mutation) whenever some model fails the
`SwappableDbTableModel` subclass check, stores the mapping exactly when all
pass, while the locking constructor accepts any models without such a
check. -/
theorem c10_override_subclass_check (args : List PyObj) (g : GState)
    (hlen : args.length % 2 = 0)
    (hcls : ∀ o ∈ evens args, isClassArg o = true) :
    ((∃ o ∈ evens args, isSwappableModel o = false) →
      overrideInit args g = (Except.error PyErr.attributeError, g)) ∧
    ((∀ o ∈ evens args, isSwappableModel o = true) →
      overrideInit args g = (Except.ok ((evens args).zip (odds args)), g)) ∧
    lockingInit args g = (Except.ok ((evens args).zip (odds args)), g) := by
  refine ⟨?_, ?_, lockingInit_ok args g hlen⟩
  · intro hex
    exact overrideInit_attrError args g hlen hcls hex
  · intro hall
    exact overrideInit_ok args g hlen hall

/-- Witness for C10: the concrete non-subclass model is rejected with
`AttributeError`. -/
theorem c10_override_subclass_check_witness :
    overrideInit c10args demoG = (Except.error PyErr.attributeError, demoG) :=
  (c10_override_subclass_check c10args demoG rfl (by decide)).1
    ⟨PyObj.model ⟨1, false⟩, by decide, rfl⟩

theorem digitChar_inj : ∀ a < 10, ∀ b < 10, digitChar a = digitChar b → a = b := by
  decide

theorem map_digitChar_inj (l1 : List Nat) (h1 : ∀ x ∈ l1, x < 10) (l2 : List Nat)
    (h2 : ∀ x ∈ l2, x < 10) (h : l1.map digitChar = l2.map digitChar) : l1 = l2 := by
  induction l1 generalizing l2 with
  | nil =>
    cases l2 with
    | nil => rfl
    | cons b bs => simp at h
  | cons a as ih =>
    cases l2 with
    | nil => simp at h
    | cons b bs =>
      simp only [List.map_cons, List.cons.injEq] at h
      have ha := h1 a (List.mem_cons_self _ _)
      have hb := h2 b (List.mem_cons_self _ _)
      rw [digitChar_inj a ha b hb h.1,
        ih (fun x hx => h1 x (List.mem_cons_of_mem _ hx)) bs
          (fun x hx => h2 x (List.mem_cons_of_mem _ hx)) h.2]

theorem digits_lt_ten (n : Nat) : ∀ x ∈ Nat.digits 10 n, x < 10 :=
  fun _ hx => Nat.digits_lt_base (by norm_num) hx

theorem natDec_ne_zero_str (b : Nat) (hb : b ≠ 0) : natDec b ≠ "0" := by
  unfold natDec
  rw [if_neg hb]
  intro h
  have hd : ((Nat.digits 10 b).map digitChar).reverse = [Char.ofNat 48] :=
    congrArg String.data h
  have h2 : (Nat.digits 10 b).map digitChar = [Char.ofNat 48] := by
    have := congrArg List.reverse hd
    rwa [List.reverse_reverse] at this
  have h3 : Nat.digits 10 b = [0] := by
    have h0 : ([0] : List Nat).map digitChar = [Char.ofNat 48] := rfl
    exact map_digitChar_inj _ (digits_lt_ten b) [0] (by decide) (h2.trans h0.symm)
  have h4 := congrArg (Nat.ofDigits 10) h3
  rw [Nat.ofDigits_digits] at h4
  simp [Nat.ofDigits] at h4
  exact hb h4

theorem natDec_inj (a b : Nat) (h : natDec a = natDec b) : a = b := by
  by_cases ha : a = 0 <;> by_cases hb : b = 0
  · rw [ha, hb]
  · exfalso
    rw [ha] at h
    exact natDec_ne_zero_str b hb h.symm
  · exfalso
    rw [hb] at h
    exact natDec_ne_zero_str a ha h
  · unfold natDec at h
    rw [if_neg ha, if_neg hb] at h
    have hd : ((Nat.digits 10 a).map digitChar).reverse =
        ((Nat.digits 10 b).map digitChar).reverse := congrArg String.data h
    have h2 := List.reverse_injective hd
    have h3 := map_digitChar_inj _ (digits_lt_ten a) _ (digits_lt_ten b) h2
    have h4 := congrArg (Nat.ofDigits 10) h3
    rwa [Nat.ofDigits_digits, Nat.ofDigits_digits] at h4

theorem derivedName_inj_tid (db_table ts : String) (tid1 tid2 : Nat)
    (h : derivedName db_table ts tid1 = derivedName db_table ts tid2) : tid1 = tid2 := by
  unfold derivedName at h
  have hd := congrArg String.data h
  simp only [String.data_append, List.append_assoc] at hd
  have h1 := List.append_cancel_left hd
  have h2 := List.append_cancel_left h1
  have h3 := List.append_cancel_left h2
  have h4 := List.append_cancel_left h3
  have h5 := List.append_cancel_left h4
  exact natDec_inj tid1 tid2 (String.ext h5)

/-- Claim C8: two derived types built from the same base with the same
target identifier receive distinct internal names whenever the thread
identity values differ, even when both creations observe the same
`%f`-rendered timestamp — the `%s-%f-%i` suffix then differs in its thread
component. -/
theorem c8_distinct_names (db_table ts : String) (tid1 tid2 : Nat) (h : tid1 ≠ tid2) :
    derivedName db_table ts tid1 ≠ derivedName db_table ts tid2 :=
  fun hc => h (derivedName_inj_tid db_table ts tid1 tid2 hc)

/-- Witness for C8: two concrete creations at one timestamp on threads 11
and 12 get different names. -/
theorem c8_distinct_names_witness :
    derivedName "skyrat" "1425464337.250000" 11 ≠ derivedName "skyrat" "1425464337.250000" 12 :=
  c8_distinct_names "skyrat" "1425464337.250000" 11 12 (by decide)

/-- Claim C9: `ReplaceDatabaseTable.__enter__` returns a newly constructed
derived type carrying the target identifier (and the disambiguated name)
while leaving the shared table state untouched, and `__exit__` mutates
nothing and returns `False`. -/
theorem c9_replace_no_mutation (base : Nat) (db_table ts : String) (tid : Nat)
    (tab : Tables) :
    (replaceEnter base db_table ts tid tab).2 = tab ∧
    (replaceEnter base db_table ts tid tab).1.dbTable = db_table ∧
    (replaceEnter base db_table ts tid tab).1.base = base ∧
    (replaceEnter base db_table ts tid tab).1.name = derivedName db_table ts tid ∧
    replaceExit tab = (tab, false) :=
  ⟨rfl, rfl, rfl, rfl, rfl⟩

end OverrideDb
